import Mathlib

/-!
# Verification of the dot-claude-plugins command-interception guards

This file gives a shallow embedding of the four Python guard scripts of the
repository:

* `src/github-cli/scripts/gh_write_blocker.py`      (model: `ghRun` and helpers)
* `src/modern-cli-enforcer/scripts/enforce.py`      (model: `modernRun` and helpers)
* `src/native-timeout-enforcer/scripts/validate_timeout.py` (model: `timeoutRun`)
* `src/python-manager-enforcer/scripts/enforce.py`  (model: `pmRun` and helpers)

Each guard is a short-lived process: it reads one JSON request from stdin and
exits 0 (allow) or exits 2 after writing a reason to stderr (block).  We model
the outcome as a `Decision`.  Python string operations (`str.split()`,
`str.strip()`, `str.replace`, `str.startswith`, `in`, `str.lower()`,
`str.isdigit()`) are modelled by executable functions over `List Char`; all
inputs of interest are ASCII, where these agree with Python's semantics.
-/

/-- Outcome of one guard invocation: exit 0 with no stderr output (`allow`),
or exit 2 after writing a reason to stderr (`block`). -/
inductive Decision where
  | allow : Decision
  | block : String → Decision
deriving DecidableEq

/-- The process exit code of a decision: 0 for allow, 2 for block. -/
def exitCode : Decision → Nat
  | .allow => 0
  | .block _ => 2

/-- What the guard writes to stderr: nothing on allow, the reason on block. -/
def stderrOut : Decision → String
  | .allow => ""
  | .block m => m

/-- `true` iff the decision is a block. -/
def isBlock : Decision → Bool
  | .allow => false
  | .block _ => true

/-- The stdin payload of one invocation, as each guard sees it:
empty stdin, non-empty but unparseable JSON, or a parsed JSON object with an
optional `tool_name` string and an optional `tool_input.command` string
(absent fields are read with `.get(..., '')` defaults in the scripts). -/
inductive StdinData where
  | empty : StdinData
  | malformed : StdinData
  | parsed (tool_name : Option String) (command : Option String) : StdinData

/-! ## Python string primitives over `List Char` -/

/-- Accumulator worker for Python's `str.split()` (split on whitespace runs,
dropping empty pieces).  `acc` holds the current token reversed. -/
def splitWsAux : List Char → List Char → List (List Char)
  | [], acc => if acc = [] then [] else [acc.reverse]
  | c :: cs, acc =>
    if c.isWhitespace then
      if acc = [] then splitWsAux cs [] else acc.reverse :: splitWsAux cs []
    else splitWsAux cs (c :: acc)

/-- Python `str.split()` with no argument: whitespace-delimited tokens. -/
def splitWsL (l : List Char) : List (List Char) := splitWsAux l []

/-- Python `str.strip()`: drop leading and trailing whitespace. -/
def trimL (l : List Char) : List Char :=
  ((l.dropWhile Char.isWhitespace).reverse.dropWhile Char.isWhitespace).reverse

/-- Python `str.strip()` on strings. -/
def pyStrip (s : String) : String := String.mk (trimL s.toList)

/-- Python `str.startswith(pat)`. -/
def pyStartsWith (s pat : String) : Bool := pat.toList.isPrefixOf s.toList

/-- `pat` occurs as a contiguous sublist of `l`. -/
def isInfixOfL (pat : List Char) : List Char → Bool
  | [] => pat.isEmpty
  | c :: t => pat.isPrefixOf (c :: t) || isInfixOfL pat t

/-- Python `pat in s` (substring containment). -/
def pyContains (s pat : String) : Bool := isInfixOfL pat.toList s.toList

/-- Python `str.lower()` (ASCII case folding suffices for our inputs). -/
def lowerL (l : List Char) : List Char := l.map Char.toLower

/-- Python `str.isdigit()` on a char list: non-empty and all digits. -/
def isDigitL (l : List Char) : Bool := !l.isEmpty && l.all Char.isDigit

/-- Python `int(...)` on an all-digit string. -/
def natOfDigits (l : List Char) : Nat := l.foldl (fun n c => n * 10 + (c.toNat - 48)) 0

/-- Python `' '.join(tokens)`. -/
def joinSpace (ts : List (List Char)) : List Char := List.intercalate [' '] ts

/-- Python `s.split(d)` for a single-character separator `d`: keeps empty
pieces, and the result is never the empty list. -/
def splitCharL (d : Char) : List Char → List (List Char)
  | [] => [[]]
  | c :: cs =>
    if c = d then [] :: splitCharL d cs
    else (splitCharL d cs).modifyHead (fun s => c :: s)

/-- Python `s.replace(a, '\n')` for a single-character pattern `a`. -/
def replace1 (a : Char) : List Char → List Char
  | [] => []
  | c :: cs => (if c = a then '\n' else c) :: replace1 a cs

/-- Python `s.replace(ab, '\n')` for a two-character pattern `a b`
(left-to-right, non-overlapping). -/
def replace2 (a b : Char) : List Char → List Char
  | [] => []
  | c :: cs =>
    if c = a then
      match cs with
      | [] => [c]
      | c2 :: cs2 =>
        if c2 = b then '\n' :: replace2 a b cs2
        else c :: replace2 a b (c2 :: cs2)
    else c :: replace2 a b cs

/-- Fuel-driven worker for Python `str.replace` with an arbitrary non-empty
pattern (left-to-right, non-overlapping).  Each step consumes at least one
character, so `fuel = l.length` suffices. -/
def replaceFuel (pat rep : List Char) : Nat → List Char → List Char
  | 0, l => l
  | _ + 1, [] => []
  | fuel + 1, c :: cs =>
    if pat.isPrefixOf (c :: cs) then rep ++ replaceFuel pat rep fuel ((c :: cs).drop pat.length)
    else c :: replaceFuel pat rep fuel cs

/-- Python `s.replace(pat, rep)` for a non-empty pattern. -/
def pyReplace (s pat rep : String) : String :=
  if pat.toList = [] then s
  else String.mk (replaceFuel pat.toList rep.toList s.toList.length s.toList)

/-- If `pre` is a prefix of `l`, the remainder of `l` after it. -/
def dropPrefixL : List Char → List Char → Option (List Char)
  | [], l => some l
  | _ :: _, [] => none
  | p :: ps, c :: cs => if p = c then dropPrefixL ps cs else none

/-- The first whitespace-delimited token of a command string (after Python
`strip()`), used to state claims about "the command's first token". -/
def firstToken (cmd : String) : Option (List Char) := (splitWsL (trimL cmd.toList)).head?

/-! ## `src/github-cli/scripts/gh_write_blocker.py` -/

/-- `WRITE_METHODS` from `gh_write_blocker.py`. -/
def WRITE_METHODS : List String := ["POST", "PUT", "PATCH", "DELETE"]

/-- `WRITE_CMDS` from `gh_write_blocker.py`. -/
def WRITE_CMDS : List String := [
  "gh repo create", "gh repo delete", "gh repo fork", "gh repo rename", "gh repo archive",
  "gh issue create", "gh issue edit", "gh issue close", "gh issue delete",
  "gh issue pin", "gh issue unpin", "gh issue transfer",
  "gh pr create", "gh pr edit", "gh pr close", "gh pr merge", "gh pr reopen",
  "gh pr ready", "gh pr comment", "gh pr review",
  "gh release create", "gh release delete", "gh release edit", "gh release upload",
  "gh run cancel", "gh run rerun",
  "gh workflow enable", "gh workflow disable", "gh workflow run",
  "gh gist create", "gh gist edit", "gh gist delete",
  "gh project create", "gh project edit", "gh project delete",
  "gh project item-add", "gh project item-edit", "gh project item-delete",
  "gh project field-create", "gh project field-delete"]

/-- State of the user-level settings store `~/.claude/settings.json` as seen
by `load_settings`: the file may be absent, unreadable (any exception while
reading or parsing), or present with the `githubWriteGuard` entry's optional
`enabled` value. -/
inductive SettingsStore where
  | absent : SettingsStore
  | unreadable : SettingsStore
  | present (enabled : Option Bool) : SettingsStore

/-- `load_settings` from `gh_write_blocker.py`: returns the `enabled` value of
the `githubWriteGuard` entry when the file is readable, and nothing (the empty
dict, hence no `enabled` key) when the file is absent or unreadable. -/
def load_settings : SettingsStore → Option Bool
  | .absent => none
  | .unreadable => none
  | .present e => e

/-- `settings.get('enabled', True)` in `main` of `gh_write_blocker.py`. -/
def settings_enabled (store : SettingsStore) : Bool := (load_settings store).getD true

/-- `has_method_flag` from `gh_write_blocker.py`: case-insensitive substring
search for `-x M`, `-xM`, `--method M`, `--method=M`. -/
def has_method_flag (cmd method : String) : Bool :=
  let cmd_lower := lowerL cmd.toList
  let method_lower := lowerL method.toList
  [("-x ".toList ++ method_lower), ("-x".toList ++ method_lower),
   ("--method ".toList ++ method_lower), ("--method=".toList ++ method_lower)].any
    (fun pat => isInfixOfL pat cmd_lower)

/-- `has_field_flag` from `gh_write_blocker.py`: a whitespace token equal to
`-f`, `-F`, `--field`, `--raw-field`, or starting with `-f` or `-F`. -/
def has_field_flag (cmd : String) : Bool :=
  (splitWsL cmd.toList).any (fun t =>
    t == "-f".toList || t == "-F".toList || t == "--field".toList || t == "--raw-field".toList ||
    "-f".toList.isPrefixOf t || "-F".toList.isPrefixOf t)

/-- `has_get_method` from `gh_write_blocker.py`: case-sensitive substring
search for `-X GET`, `--method GET`, `--method=GET`. -/
def has_get_method (cmd : String) : Bool :=
  ["-X GET", "--method GET", "--method=GET"].any (fun pat => isInfixOfL pat.toList cmd.toList)

/-- The `gh api` branch of `main` in `gh_write_blocker.py`: the write-method
loop and the implicit-POST field-flag check; `none` means fall through. -/
def ghApiBlock (cmd : String) : Option Decision :=
  match splitWsL cmd.toList with
  | t0 :: t1 :: _ =>
    if t0 == "gh".toList && t1 == "api".toList then
      match WRITE_METHODS.find? (fun method => has_method_flag cmd method) with
      | some method => some (.block ("❌ GitHub write blocked: gh api " ++ method))
      | none =>
        if has_field_flag cmd && !(has_get_method cmd) then
          some (.block "❌ GitHub write blocked: gh api with -f/-F flags (defaults to POST)")
        else none
    else none
  | _ => none

/-- The `WRITE_CMDS` prefix loop at the end of `main` in
`gh_write_blocker.py`. -/
def ghWriteCmdCheck (cmd : String) : Decision :=
  match WRITE_CMDS.find? (fun write_cmd => pyStartsWith cmd write_cmd) with
  | some write_cmd => .block ("❌ GitHub write blocked: gh " ++ pyReplace write_cmd "gh " "")
  | none => .allow

/-- `main` of `gh_write_blocker.py`.  Empty or malformed stdin raises inside
`json.load` and is caught by the top-level handler (exit 0); absent fields
default to the empty string. -/
def ghRun (stdin : StdinData) (store : SettingsStore) : Decision :=
  match stdin with
  | .empty => .allow
  | .malformed => .allow
  | .parsed tn cmd? =>
    let tool := tn.getD ""
    let cmd := cmd?.getD ""
    if !(tool == "Bash") || !(pyStartsWith cmd "gh ") then .allow
    else if !(settings_enabled store) then .allow
    else
      match ghApiBlock cmd with
      | some d => d
      | none => ghWriteCmdCheck cmd






/-! ## `src/modern-cli-enforcer/scripts/enforce.py` -/

/-- `has_command_word` from the modern-CLI enforcer: replace each of `|`,
`&&`, `||`, `;` (in that order) by a newline, split on newlines, and test
whether `word` is the first whitespace token of some segment. -/
def has_command_word (cmd word : String) : Bool :=
  let segs := splitCharL '\n'
    (replace1 ';' (replace2 '|' '|' (replace2 '&' '&' (replace1 '|' cmd.toList))))
  segs.any (fun seg =>
    match splitWsL (trimL seg) with
    | t :: _ => t == word.toList
    | [] => false)

/-- Which modern replacement tools `shutil.which` finds installed. -/
structure ModernEnv where
  rg : Bool
  fd : Bool
  bat : Bool
  eza : Bool

/-- The `blocks` list built in `main` of the modern-CLI enforcer:
(legacy tool, modern tool, example) triples. -/
def modernBlocks (env : ModernEnv) (cmd : String) : List (String × String × String) :=
  (if env.rg && has_command_word cmd "grep" then
    [("grep", "ripgrep (rg)", "grep 'pattern' → rg 'pattern'")] else []) ++
  (if env.fd && has_command_word cmd "find" then
    [("find", "fd", "find . -name '*.txt' → fd '*.txt'")] else []) ++
  (if env.bat && has_command_word cmd "cat" then
    [("cat", "bat", "cat file.py → bat file.py")] else []) ++
  (if env.eza && has_command_word cmd "ls" then
    [("ls", "eza", "ls -la → eza -la")] else [])

/-- The stderr message written by the modern-CLI enforcer when `blocks` is
non-empty (the f-string in `main`). -/
def modernMessage (blocks : List (String × String × String)) : String :=
  let tools := String.intercalate "\n"
    (blocks.map (fun b => "  • Use " ++ b.2.1 ++ " instead of " ++ b.1))
  let examples := String.intercalate "\n" (blocks.map (fun b => "  " ++ b.2.2))
  "⚠️  Legacy CLI tool(s) detected. Modern alternatives are available:\n\n" ++ tools ++
  "\n\n**Why modern tools?**\n  - Faster performance (parallel processing)\n" ++
  "  - Better defaults (smart ignore patterns)\n  - Improved UX (colors, formatting)\n\n" ++
  "**Example replacements:**\n" ++ examples ++
  "\n\nThis command will be **blocked**. Please use modern alternatives.\n"

/-- `main` of the modern-CLI enforcer.  It never reads `tool_name`; empty or
malformed stdin raises inside `json.load` and is caught (exit 0). -/
def modernRun (stdin : StdinData) (env : ModernEnv) : Decision :=
  match stdin with
  | .empty => .allow
  | .malformed => .allow
  | .parsed _ cmd? =>
    let cmd := cmd?.getD ""
    if cmd == "" then .allow
    else
      let blocks := modernBlocks env cmd
      if blocks.isEmpty then .allow else .block (modernMessage blocks)


/-! ## `src/native-timeout-enforcer/scripts/validate_timeout.py` -/

/-- The duration-token test in `parse_duration`: `token[-1] in 'smhd' and
token[:-1].isdigit()`. -/
def isDurTok (t : List Char) : Bool :=
  (match t.getLast? with
   | some c => c = 's' || c = 'm' || c = 'h' || c = 'd'
   | none => false) && isDigitL t.dropLast

/-- The scanning loop of `parse_duration` over `tokens[1:]`: skip tokens
starting with `--`, return the first duration-looking or all-digit token
together with the tokens after it. -/
def find_duration : List (List Char) → Option (List Char × List (List Char))
  | [] => none
  | t :: rest =>
    if "--".toList.isPrefixOf t then find_duration rest
    else if isDurTok t then some (t, rest)
    else if isDigitL t then some (t, rest)
    else find_duration rest

/-- `parse_duration` from `validate_timeout.py`: for a command starting with
`timeout`/`gtimeout`, the extracted duration string (default `"5"`) and the
re-joined remaining command; otherwise `("", cmd)`. -/
def parse_duration (cmd : String) : String × String :=
  match splitWsL (trimL cmd.toList) with
  | [] => ("", cmd)
  | t0 :: rest =>
    if t0 == "timeout".toList || t0 == "gtimeout".toList then
      match find_duration rest with
      | some (d, after) => (String.mk d, String.mk (joinSpace after))
      | none => ("5", String.mk (joinSpace rest))
    else ("", cmd)

/-- `to_ms` from `validate_timeout.py`: seconds ×1000, minutes ×60000, plain
digits treated as seconds, anything else `"5000"`. -/
def to_ms (duration : String) : String :=
  if duration.toList.getLast? == some 's' && isDigitL duration.toList.dropLast then
    toString (natOfDigits duration.toList.dropLast * 1000)
  else if duration.toList.getLast? == some 'm' && isDigitL duration.toList.dropLast then
    toString (natOfDigits duration.toList.dropLast * 60000)
  else if isDigitL duration.toList then toString (natOfDigits duration.toList * 1000)
  else "5000"

/-- `main` of `validate_timeout.py`.  It never reads `tool_name`. -/
def timeoutRun (stdin : StdinData) : Decision :=
  match stdin with
  | .empty => .allow
  | .malformed => .allow
  | .parsed _ cmd? =>
    let cmd := cmd?.getD ""
    if cmd == "" then .allow
    else
      let cmd_stripped := pyStrip cmd
      if pyStartsWith cmd_stripped "timeout " || pyStartsWith cmd_stripped "gtimeout " then
        let p := parse_duration cmd
        .block ("⚠️ Direct timeout blocked\nUse Bash timeout parameter: Bash(command=\"" ++
          p.2 ++ "\", timeout=" ++ to_ms p.1 ++ ")\n")
      else if pyContains cmd " timeout " || pyContains cmd " gtimeout " then
        if ["&&", "||", ";", "|"].any (fun sep => pyContains cmd sep) then
          .block "⚠️ Timeout in command chain blocked\nSplit into separate Bash calls with timeout parameter\n"
        else .allow
      else .allow


/-! ## `src/python-manager-enforcer/scripts/enforce.py` -/

/-- The project directory, as probed by `detect_package_manager`.  Readable
text files are `some (some content)`, existing-but-unreadable files are
`some none` (a read exception), absent files are `none`; the bare existence
checks are Booleans. -/
structure ProjectDir where
  isDir : Bool
  poetryLock : Bool
  pyproject : Option (Option String)
  uvLock : Bool
  ryeLock : Bool
  pythonVersion : Option (Option String)
  ryeDir : Bool
  pdmLock : Bool
  pixiLock : Bool
  pixiToml : Bool
  environmentYml : Bool
  condaYml : Bool

/-- The tail of `detect_package_manager` after the `.python-version` check:
`pdm.lock`, then `pixi.lock`/`pixi.toml`, then `environment.yml`/`conda.yml`. -/
def detectTail (d : ProjectDir) : Option String :=
  if d.pdmLock then some "pdm"
  else if d.pixiLock || d.pixiToml then some "pixi"
  else if d.environmentYml || d.condaYml then some "conda"
  else none

/-- The `pyproject.toml` section-marker step of `detect_package_manager`:
`[tool.poetry]`, `[tool.pdm]`, `[tool.hatch]` in that order; an absent or
unreadable file yields nothing. -/
def pyprojectManager : Option (Option String) → Option String
  | some (some content) =>
    if pyContains content "[tool.poetry]" then some "poetry"
    else if pyContains content "[tool.pdm]" then some "pdm"
    else if pyContains content "[tool.hatch]" then some "hatch"
    else none
  | _ => none

/-- `detect_package_manager` from the python-manager enforcer, checked in
source order: `poetry.lock`; `pyproject.toml` section markers; `uv.lock`;
`rye.lock`; `.python-version` (rye markers, else uv; a read exception falls
through); then `detectTail`. -/
def detect_package_manager (d : ProjectDir) : Option String :=
  if !d.isDir then none
  else if d.poetryLock then some "poetry"
  else
    match pyprojectManager d.pyproject with
    | some m => some m
    | none =>
      if d.uvLock then some "uv"
      else if d.ryeLock then some "rye"
      else
        match d.pythonVersion with
        | some (some content) =>
          if pyContains (String.mk (lowerL content.toList)) "rye" || d.ryeDir then some "rye"
          else some "uv"
        | _ => detectTail d

/-- `get_run_command` from the python-manager enforcer. -/
def get_run_command (manager : String) : String :=
  match manager with
  | "poetry" => "poetry run"
  | "uv" => "uv run"
  | "pdm" => "pdm run"
  | "hatch" => "hatch run"
  | "rye" => "rye run"
  | "pixi" => "pixi run"
  | "conda" => "conda run -n <env_name>"
  | "mamba" => "mamba run -n <env_name>"
  | m => m ++ " run"

/-- Consume the optional `3` of the regex atom `python3?`. -/
def dropOpt3 (l : List Char) : List Char :=
  match l with
  | c :: rest => if c = '3' then rest else l
  | [] => l

/-- Whether the regex atom `python3?` consumed a `3`. -/
def consumed3 (l : List Char) : Bool :=
  match l with
  | c :: _ => c = '3'
  | [] => false

/-- Consume the regex atom `\s+`: at least one whitespace character, then all
following whitespace (the next atoms in the source patterns start with a
non-whitespace character, so greedy matching is exact). -/
def dropWs1 (l : List Char) : Option (List Char) :=
  match l with
  | c :: rest => if c.isWhitespace then some (rest.dropWhile Char.isWhitespace) else none
  | [] => none

/-- The manager names of the bootstrap pattern in `is_bootstrapping_command`. -/
def BOOT_MANAGERS : List String :=
  ["poetry", "uv", "pdm", "hatch", "rye", "pixi", "pip", "conda", "mamba"]

/-- `is_bootstrapping_command` from the python-manager enforcer: the regex
`^python3?\s+-m\s+(poetry|uv|pdm|hatch|rye|pixi|pip|conda|mamba)` matched
against `command.strip()`. -/
def is_bootstrapping_command (command : String) : Bool :=
  match dropPrefixL "python".toList (trimL command.toList) with
  | none => false
  | some l1 =>
    match dropWs1 (dropOpt3 l1) with
    | none => false
    | some l3 =>
      match dropPrefixL "-m".toList l3 with
      | none => false
      | some l4 =>
        match dropWs1 l4 with
        | none => false
        | some l5 => BOOT_MANAGERS.any (fun m => m.toList.isPrefixOf l5)

/-- `should_block_command` from the python-manager enforcer: the regex
`^(python3?)(\s)` matched against `command.strip()`. -/
def should_block_command (command : String) : Bool :=
  match dropPrefixL "python".toList (trimL command.toList) with
  | none => false
  | some l1 =>
    match dropOpt3 l1 with
    | c :: _ => c.isWhitespace
    | [] => false

/-- `suggest_replacement` from the python-manager enforcer: the regex
`^(python3?)(\s.*)$` with `re.match` semantics (`.` does not match a newline
and `$` also matches just before one trailing newline), then
`{run_cmd} {python_cmd} {rest}` with `rest = group(2).strip()`. -/
def suggest_replacement (command manager : String) : Option String :=
  match dropPrefixL "python".toList command.toList with
  | none => none
  | some l1 =>
    let python_cmd := if consumed3 l1 then "python3" else "python"
    match dropOpt3 l1 with
    | c :: t =>
      if c.isWhitespace then
        let body? : Option (List Char) :=
          if t.contains '\n' then
            if t.getLast? == some '\n' && !(t.dropLast.contains '\n') then some t.dropLast
            else none
          else some t
        match body? with
        | none => none
        | some body =>
          let rest := trimL (c :: body)
          let runner := get_run_command manager
          if rest ≠ [] then some (runner ++ " " ++ python_cmd ++ " " ++ String.mk rest)
          else some (runner ++ " " ++ python_cmd)
      else none
    | [] => none

/-- Python `f"{x}"` of an `Optional[str]`. -/
def pyStrOpt : Option String → String
  | none => "None"
  | some s => s

/-- `main` of the python-manager enforcer.  It never reads `tool_name`; the
project directory (`CLAUDE_PROJECT_DIR` or the working directory) enters as
the probed `ProjectDir`. -/
def pmRun (stdin : StdinData) (d : ProjectDir) : Decision :=
  match stdin with
  | .empty => .allow
  | .malformed => .allow
  | .parsed _ cmd? =>
    let command := cmd?.getD ""
    if command == "" then .allow
    else if is_bootstrapping_command command then .allow
    else if !(should_block_command command) then .allow
    else
      match detect_package_manager d with
      | none => .allow
      | some manager =>
        .block ("‚ùå Direct python blocked. Project uses " ++ manager ++ ": " ++
          pyStrOpt (suggest_replacement command manager))

/-- A bare directory with none of the marker files. -/
def emptyDir : ProjectDir :=
  ⟨true, false, none, false, false, none, false, false, false, false, false, false⟩


/-! ## Helper lemmas: segmentation

The spec describes segmentation as "splitting on `|`, `&&`, `||`, `;`".
`specSegs` is a direct one-pass reading of that description, parameterised by
whether a newline also delimits segments (`nl`); the code's sequential
`str.replace` pipeline additionally splits on pre-existing newlines, which is
what the `nl := true` instance captures. -/

/-- A single-character delimiter of the spec-side segmentation: `|`, `;`,
and, when `nl` is set, a newline. -/
def isSpecDelim (nl : Bool) (c : Char) : Bool := c = '|' || c = ';' || (nl && c = '\n')

/-- Spec-side segmentation: split on `|`, `;`, two-character `&&`
(left-to-right), and, when `nl`, newlines.  (`||` is two adjacent `|`
delimiters, so it needs no separate case.) -/
def specSegs (nl : Bool) : List Char → List (List Char)
  | [] => [[]]
  | c :: cs =>
    if isSpecDelim nl c then [] :: specSegs nl cs
    else if c = '&' then
      match cs with
      | [] => [[c]]
      | c2 :: cs2 =>
        if c2 = '&' then [] :: specSegs nl cs2
        else (specSegs nl (c2 :: cs2)).modifyHead (fun s => c :: s)
    else (specSegs nl cs).modifyHead (fun s => c :: s)

/-- Spec-side reading of "`word` is used as a command": `word` is the first
whitespace token of some segment of the spec-side segmentation, after
trimming. -/
def spec_uses_as_command (nl : Bool) (cmd word : String) : Bool :=
  (specSegs nl cmd.toList).any (fun seg =>
    match splitWsL (trimL seg) with
    | t :: _ => t == word.toList
    | [] => false)

theorem replace1_cons (a c : Char) (cs : List Char) :
    replace1 a (c :: cs) = (if c = a then '\n' else c) :: replace1 a cs := rfl

theorem replace2_cons_ne {a c : Char} (b : Char) (cs : List Char) (h : c ≠ a) :
    replace2 a b (c :: cs) = c :: replace2 a b cs := by
  cases cs <;> simp [replace2, h]

theorem replace2_pair (a b : Char) (cs : List Char) :
    replace2 a b (a :: b :: cs) = '\n' :: replace2 a b cs := by
  simp [replace2]

theorem replace2_pair_ne {b c2 : Char} (a : Char) (cs2 : List Char) (h : c2 ≠ b) :
    replace2 a b (a :: c2 :: cs2) = a :: replace2 a b (c2 :: cs2) := by
  simp [replace2, h]

theorem replace2_singleton (a b : Char) : replace2 a b [a] = [a] := by
  simp [replace2]

theorem splitCharL_cons_eq (d : Char) (cs : List Char) :
    splitCharL d (d :: cs) = [] :: splitCharL d cs := by
  simp [splitCharL]

theorem splitCharL_cons_ne {c d : Char} (cs : List Char) (h : c ≠ d) :
    splitCharL d (c :: cs) = (splitCharL d cs).modifyHead (fun s => c :: s) := by
  simp [splitCharL, h]

theorem not_mem_replace1_self {a : Char} (h : a ≠ '\n') (l : List Char) :
    a ∉ replace1 a l := by
  induction l with
  | nil => simp [replace1]
  | cons c cs ih =>
    rw [replace1_cons]
    intro hmem
    rcases List.mem_cons.mp hmem with heq | htail
    · by_cases hc : c = a
      · rw [if_pos hc] at heq; exact h heq
      · rw [if_neg hc] at heq; exact hc heq.symm
    · exact ih htail

theorem mem_replace2 (a b : Char) :
    ∀ (n : Nat) (l : List Char), l.length ≤ n → ∀ x ∈ replace2 a b l, x ∈ l ∨ x = '\n' := by
  intro n
  induction n with
  | zero =>
    intro l hl
    rw [List.length_eq_zero.mp (Nat.le_zero.mp hl)]
    simp [replace2]
  | succ n ih =>
    intro l hl x hx
    match l with
    | [] => simp [replace2] at hx
    | c :: cs =>
      by_cases hc : c = a
      · subst hc
        match cs with
        | [] =>
          rw [replace2_singleton] at hx
          exact Or.inl hx
        | c2 :: cs2 =>
          by_cases hc2 : c2 = b
          · subst hc2
            rw [replace2_pair] at hx
            rcases List.mem_cons.mp hx with heq | htail
            · exact Or.inr heq
            · have hlen : cs2.length ≤ n := by
                simp at hl; omega
              rcases ih cs2 hlen x htail with hmem | hnl
              · exact Or.inl (by simp [hmem])
              · exact Or.inr hnl
          · rw [replace2_pair_ne c cs2 hc2] at hx
            rcases List.mem_cons.mp hx with heq | htail
            · exact Or.inl (by simp [heq])
            · have hlen : (c2 :: cs2).length ≤ n := by
                simp at hl ⊢; omega
              rcases ih (c2 :: cs2) hlen x htail with hmem | hnl
              · exact Or.inl (List.mem_cons_of_mem _ hmem)
              · exact Or.inr hnl
      · rw [replace2_cons_ne b cs hc] at hx
        rcases List.mem_cons.mp hx with heq | htail
        · exact Or.inl (by simp [heq])
        · have hlen : cs.length ≤ n := by simp at hl; omega
          rcases ih cs hlen x htail with hmem | hnl
          · exact Or.inl (List.mem_cons_of_mem _ hmem)
          · exact Or.inr hnl

theorem replace2_eq_self_of_not_mem {a : Char} (b : Char) :
    ∀ (l : List Char), a ∉ l → replace2 a b l = l := by
  intro l
  induction l with
  | nil => intro _; rfl
  | cons c cs ih =>
    intro h
    have hc : c ≠ a := fun he => h (he ▸ List.mem_cons_self c cs)
    rw [replace2_cons_ne b cs hc, ih (fun hm => h (List.mem_cons_of_mem _ hm))]

/-- The `||`-replacement pass of `has_command_word` is the identity: the
earlier `|`-replacement pass has removed every `|`. -/
theorem pipepipe_collapse (l : List Char) :
    replace2 '|' '|' (replace2 '&' '&' (replace1 '|' l)) =
      replace2 '&' '&' (replace1 '|' l) := by
  apply replace2_eq_self_of_not_mem
  intro hmem
  rcases mem_replace2 '&' '&' (replace1 '|' l).length (replace1 '|' l) le_rfl '|' hmem with
    hin | hnl
  · exact not_mem_replace1_self (by decide) l hin
  · exact absurd hnl (by decide)

/-- The replace-then-split pipeline of `has_command_word`, with the identity
`||` pass already removed (see `pipepipe_collapse`). -/
def codeSegsInner (l : List Char) : List (List Char) :=
  splitCharL '\n' (replace1 ';' (replace2 '&' '&' (replace1 '|' l)))

theorem codeSegsInner_pipe (cs : List Char) :
    codeSegsInner ('|' :: cs) = [] :: codeSegsInner cs := by
  unfold codeSegsInner
  rw [replace1_cons, if_pos rfl, replace2_cons_ne '&' _ (by decide), replace1_cons,
    if_neg (by decide), splitCharL_cons_eq]

theorem codeSegsInner_semi (cs : List Char) :
    codeSegsInner (';' :: cs) = [] :: codeSegsInner cs := by
  unfold codeSegsInner
  rw [replace1_cons, if_neg (by decide), replace2_cons_ne '&' _ (by decide), replace1_cons,
    if_pos rfl, splitCharL_cons_eq]

theorem codeSegsInner_nl (cs : List Char) :
    codeSegsInner ('\n' :: cs) = [] :: codeSegsInner cs := by
  unfold codeSegsInner
  rw [replace1_cons, if_neg (by decide), replace2_cons_ne '&' _ (by decide), replace1_cons,
    if_neg (by decide), splitCharL_cons_eq]

theorem codeSegsInner_amp2 (cs : List Char) :
    codeSegsInner ('&' :: '&' :: cs) = [] :: codeSegsInner cs := by
  unfold codeSegsInner
  rw [replace1_cons, if_neg (by decide), replace1_cons, if_neg (by decide),
    replace2_pair, replace1_cons, if_neg (by decide), splitCharL_cons_eq]

theorem codeSegsInner_amp0 : codeSegsInner ['&'] = [['&']] := by decide

theorem codeSegsInner_amp1 (c2 : Char) (cs2 : List Char) (h : c2 ≠ '&') :
    codeSegsInner ('&' :: c2 :: cs2) =
      (codeSegsInner (c2 :: cs2)).modifyHead (fun s => '&' :: s) := by
  unfold codeSegsInner
  rw [replace1_cons ('|') '&', if_neg (by decide)]
  rw [show replace1 '|' (c2 :: cs2) = (if c2 = '|' then '\n' else c2) :: replace1 '|' cs2
    from rfl]
  by_cases hc2 : c2 = '|'
  · rw [if_pos hc2, replace2_pair_ne '&' _ (by decide), replace2_cons_ne '&' _ (by decide),
      replace1_cons ';' '&', if_neg (by decide), replace1_cons ';' '\n', if_neg (by decide),
      splitCharL_cons_ne _ (by decide), splitCharL_cons_eq]
  · rw [if_neg hc2, replace2_pair_ne '&' _ h]
    by_cases hsemi : c2 = ';'
    · subst hsemi
      rw [replace2_cons_ne '&' _ h, replace1_cons ';' '&', if_neg (by decide),
        replace1_cons ';' ';', if_pos rfl, splitCharL_cons_ne _ (by decide), splitCharL_cons_eq]
    · by_cases hnl : c2 = '\n'
      · subst hnl
        rw [replace2_cons_ne '&' _ h, replace1_cons ';' '&', if_neg (by decide),
          replace1_cons ';' '\n', if_neg (by decide), splitCharL_cons_ne _ (by decide),
          splitCharL_cons_eq]
      · rw [replace2_cons_ne '&' _ h, replace1_cons ';' '&', if_neg (by decide),
          replace1_cons ';' c2, if_neg hsemi, splitCharL_cons_ne _ (by decide),
          splitCharL_cons_ne _ hnl]

theorem codeSegsInner_other (c : Char) (cs : List Char) (h1 : c ≠ '|') (h2 : c ≠ ';')
    (h3 : c ≠ '\n') (h4 : c ≠ '&') :
    codeSegsInner (c :: cs) = (codeSegsInner cs).modifyHead (fun s => c :: s) := by
  unfold codeSegsInner
  rw [replace1_cons, if_neg h1, replace2_cons_ne '&' _ h4, replace1_cons, if_neg h2,
    splitCharL_cons_ne _ h3]

theorem specSegs_delim {nl : Bool} {c : Char} (cs : List Char) (h : isSpecDelim nl c = true) :
    specSegs nl (c :: cs) = [] :: specSegs nl cs := by
  cases cs <;> simp [specSegs, h]

theorem specSegs_amp0 {nl : Bool} (h : isSpecDelim nl '&' = false) :
    specSegs nl ['&'] = [['&']] := by
  simp [specSegs, h]

theorem specSegs_amp2 {nl : Bool} (cs : List Char) (h : isSpecDelim nl '&' = false) :
    specSegs nl ('&' :: '&' :: cs) = [] :: specSegs nl cs := by
  simp [specSegs, h]

theorem specSegs_amp1 {nl : Bool} {c2 : Char} (cs2 : List Char) (h : isSpecDelim nl '&' = false)
    (h2 : c2 ≠ '&') :
    specSegs nl ('&' :: c2 :: cs2) = (specSegs nl (c2 :: cs2)).modifyHead (fun s => '&' :: s) := by
  simp [specSegs, h, h2]

theorem specSegs_other {nl : Bool} {c : Char} (cs : List Char) (h1 : isSpecDelim nl c = false)
    (h2 : c ≠ '&') :
    specSegs nl (c :: cs) = (specSegs nl cs).modifyHead (fun s => c :: s) := by
  cases cs <;> simp [specSegs, h1, h2]

/-- The code's replace-then-split segmentation agrees with the one-pass
spec-side segmentation that treats `|`, `&&`, `;` and newlines as segment
delimiters. -/
theorem codeSegsInner_eq_specSegs :
    ∀ (n : Nat) (l : List Char), l.length ≤ n → codeSegsInner l = specSegs true l := by
  intro n
  induction n with
  | zero =>
    intro l hl
    rw [List.length_eq_zero.mp (Nat.le_zero.mp hl)]
    rfl
  | succ n ih =>
    intro l hl
    match l with
    | [] => rfl
    | c :: cs =>
      have hcs : cs.length ≤ n := by simp at hl; omega
      by_cases hpipe : c = '|'
      · subst hpipe
        rw [codeSegsInner_pipe, specSegs_delim cs (by decide), ih cs hcs]
      · by_cases hsemi : c = ';'
        · subst hsemi
          rw [codeSegsInner_semi, specSegs_delim cs (by decide), ih cs hcs]
        · by_cases hnl : c = '\n'
          · subst hnl
            rw [codeSegsInner_nl, specSegs_delim cs (by decide), ih cs hcs]
          · by_cases hamp : c = '&'
            · subst hamp
              match cs with
              | [] => rw [codeSegsInner_amp0, specSegs_amp0 (by decide)]
              | c2 :: cs2 =>
                by_cases hc2 : c2 = '&'
                · subst hc2
                  have hcs2 : cs2.length ≤ n := by simp at hl; omega
                  rw [codeSegsInner_amp2, specSegs_amp2 cs2 (by decide), ih cs2 hcs2]
                · rw [codeSegsInner_amp1 c2 cs2 hc2, specSegs_amp1 cs2 (by decide) hc2,
                    ih (c2 :: cs2) hcs]
            · have hd : isSpecDelim true c = false := by
                simp [isSpecDelim, hpipe, hsemi, hnl]
              rw [codeSegsInner_other c cs hpipe hsemi hnl hamp, specSegs_other cs hd hamp,
                ih cs hcs]

/-- `has_command_word` computes exactly the spec-side "used as a command"
predicate with newline included among the delimiters. -/
theorem has_command_word_eq_spec (cmd word : String) :
    has_command_word cmd word = spec_uses_as_command true cmd word := by
  unfold has_command_word spec_uses_as_command
  rw [pipepipe_collapse]
  rw [show splitCharL '\n' (replace1 ';' (replace2 '&' '&' (replace1 '|' cmd.toList))) =
      codeSegsInner cmd.toList from rfl]
  rw [codeSegsInner_eq_specSegs cmd.toList.length cmd.toList le_rfl]

/-! ## Helper lemmas: whitespace splitting ignores leading/trailing space -/

theorem splitWsAux_all_ws :
    ∀ (w acc : List Char), (∀ c ∈ w, c.isWhitespace = true) →
      splitWsAux w acc = if acc = [] then [] else [acc.reverse] := by
  intro w
  induction w with
  | nil => intro acc _; rfl
  | cons c cs ih =>
    intro acc hw
    have hc : c.isWhitespace = true := hw c (List.mem_cons_self c cs)
    have hcs : ∀ x ∈ cs, x.isWhitespace = true := fun x hx => hw x (List.mem_cons_of_mem _ hx)
    by_cases hacc : acc = [] <;> simp [splitWsAux, hc, ih [] hcs, hacc]

theorem splitWsAux_append_ws :
    ∀ (l w acc : List Char), (∀ c ∈ w, c.isWhitespace = true) →
      splitWsAux (l ++ w) acc = splitWsAux l acc := by
  intro l
  induction l with
  | nil =>
    intro w acc hw
    rw [List.nil_append, splitWsAux_all_ws w acc hw]
    rfl
  | cons c cs ih =>
    intro w acc hw
    rw [List.cons_append]
    simp only [splitWsAux, ih w [] hw, ih w (c :: acc) hw]

theorem splitWsL_dropWhile (l : List Char) :
    splitWsL (l.dropWhile Char.isWhitespace) = splitWsL l := by
  induction l with
  | nil => rfl
  | cons c cs ih =>
    by_cases hc : c.isWhitespace
    · rw [List.dropWhile_cons_of_pos hc, ih]
      show _ = (if c.isWhitespace then _ else _)
      rw [hc]
      rfl
    · rw [List.dropWhile_cons_of_neg hc]

theorem splitWsL_trimL (l : List Char) : splitWsL (trimL l) = splitWsL l := by
  have hdecomp : l.dropWhile Char.isWhitespace =
      trimL l ++ ((l.dropWhile Char.isWhitespace).reverse.takeWhile Char.isWhitespace).reverse := by
    unfold trimL
    rw [← List.reverse_append, List.takeWhile_append_dropWhile, List.reverse_reverse]
  have hws : ∀ c ∈ ((l.dropWhile Char.isWhitespace).reverse.takeWhile Char.isWhitespace).reverse,
      c.isWhitespace = true := by
    intro c hc
    exact List.mem_takeWhile_imp (List.mem_reverse.mp hc)
  rw [← splitWsL_dropWhile l, hdecomp]
  exact (splitWsAux_append_ws (trimL l) _ [] hws).symm

/-- `firstToken` (the first token of the stripped command) is also the head
of the unstripped whitespace split. -/
theorem firstToken_eq (cmd : String) : firstToken cmd = (splitWsL cmd.toList).head? := by
  unfold firstToken
  rw [splitWsL_trimL]

theorem dropPrefixL_eq_some :
    ∀ (p l r : List Char), dropPrefixL p l = some r → l = p ++ r := by
  intro p
  induction p with
  | nil =>
    intro l r h
    simp only [dropPrefixL, Option.some.injEq] at h
    rw [h, List.nil_append]
  | cons x xs ih =>
    intro l r h
    match l with
    | [] => simp [dropPrefixL] at h
    | c :: cs =>
      simp only [dropPrefixL] at h
      by_cases hx : x = c
      · rw [if_pos hx] at h
        rw [List.cons_append, ← hx, ih cs r h]
      · rw [if_neg hx] at h
        exact absurd h (by simp)

theorem splitWsAux_emit {c : Char} (cs acc : List Char) (h : c.isWhitespace = true)
    (hacc : ¬acc = []) : splitWsAux (c :: cs) acc = acc.reverse :: splitWsAux cs [] := by
  simp [splitWsAux, h, hacc]

theorem firstToken_of_gh {cmd : String} (h : pyStartsWith cmd "gh " = true) :
    firstToken cmd = some "gh".toList := by
  simp only [pyStartsWith] at h
  obtain ⟨t, ht⟩ := List.isPrefixOf_iff_prefix.mp h
  rw [firstToken_eq, ← ht]
  rfl

theorem firstToken_of_timeout {cmd : String} (h : pyStartsWith (pyStrip cmd) "timeout " = true) :
    firstToken cmd = some "timeout".toList := by
  simp only [pyStartsWith, pyStrip] at h
  obtain ⟨t, ht⟩ := List.isPrefixOf_iff_prefix.mp h
  unfold firstToken
  rw [show (String.mk (trimL cmd.toList)).toList = trimL cmd.toList from rfl] at ht
  rw [← ht]
  rfl

theorem firstToken_of_gtimeout {cmd : String} (h : pyStartsWith (pyStrip cmd) "gtimeout " = true) :
    firstToken cmd = some "gtimeout".toList := by
  simp only [pyStartsWith, pyStrip] at h
  obtain ⟨t, ht⟩ := List.isPrefixOf_iff_prefix.mp h
  unfold firstToken
  rw [show (String.mk (trimL cmd.toList)).toList = trimL cmd.toList from rfl] at ht
  rw [← ht]
  rfl

theorem firstToken_of_should_block {cmd : String} (h : should_block_command cmd = true) :
    firstToken cmd = some "python".toList ∨ firstToken cmd = some "python3".toList := by
  unfold should_block_command at h
  cases hdp : dropPrefixL "python".toList (trimL cmd.toList) with
  | none => rw [hdp] at h; exact absurd h (by decide)
  | some l1 =>
    rw [hdp] at h
    have h2 : (match dropOpt3 l1 with | c :: _ => c.isWhitespace | [] => false) = true := h
    have ht : trimL cmd.toList = "python".toList ++ l1 := dropPrefixL_eq_some _ _ _ hdp
    match l1 with
    | [] => exact absurd h2 (by decide)
    | c1 :: l2 =>
      by_cases h3 : c1 = '3'
      · subst h3
        rw [show dropOpt3 ('3' :: l2) = l2 from by simp [dropOpt3]] at h2
        match l2 with
        | [] => exact absurd h2 (by decide)
        | c :: l3 =>
          have hw : c.isWhitespace = true := h2
          refine Or.inr ?_
          unfold firstToken
          rw [ht]
          rw [show splitWsL ("python".toList ++ '3' :: c :: l3) =
            splitWsAux (c :: l3) ['3', 'n', 'o', 'h', 't', 'y', 'p'] from rfl]
          rw [splitWsAux_emit _ _ hw (by decide)]
          rfl
      · rw [show dropOpt3 (c1 :: l2) = c1 :: l2 from by simp [dropOpt3, h3]] at h2
        have hw : c1.isWhitespace = true := h2
        refine Or.inl ?_
        unfold firstToken
        rw [ht]
        rw [show splitWsL ("python".toList ++ c1 :: l2) =
          splitWsAux (c1 :: l2) ['n', 'o', 'h', 't', 'y', 'p'] from rfl]
        rw [splitWsAux_emit _ _ hw (by decide)]
        rfl

/-- No `WRITE_CMDS` entry is a prefix of a command whose second whitespace
token is `api`: every entry fixes its second token to `repo`, `issue`, `pr`,
`release`, `run`, `workflow`, `gist` or `project`. -/
theorem write_cmds_not_prefix_of_api {cmd : String}
    (h1 : (splitWsL cmd.toList).tail.head? = some "api".toList) :
    WRITE_CMDS.find? (fun write_cmd => pyStartsWith cmd write_cmd) = none := by
  rw [List.find?_eq_none]
  intro w hw
  fin_cases hw <;>
  · intro hp
    simp only [pyStartsWith] at hp
    obtain ⟨t, ht⟩ := List.isPrefixOf_iff_prefix.mp hp
    rw [← ht] at h1
    injection h1 with h2
    revert h2
    decide

/-! ## Claim theorems -/

/-- C1: For every invocation whose standard input is malformed JSON, empty,
or lacks a command field, every guard produces the allow decision (exit 0,
nothing written to stderr); it never crashes and never blocks. -/
theorem c1_fail_open (tn : Option String) (store : SettingsStore) (env : ModernEnv)
    (d : ProjectDir) :
    (ghRun .empty store = .allow ∧ ghRun .malformed store = .allow ∧
      ghRun (.parsed tn none) store = .allow) ∧
    (modernRun .empty env = .allow ∧ modernRun .malformed env = .allow ∧
      modernRun (.parsed tn none) env = .allow) ∧
    (timeoutRun .empty = .allow ∧ timeoutRun .malformed = .allow ∧
      timeoutRun (.parsed tn none) = .allow) ∧
    (pmRun .empty d = .allow ∧ pmRun .malformed d = .allow ∧
      pmRun (.parsed tn none) d = .allow) ∧
    exitCode .allow = 0 ∧ stderrOut .allow = "" := by
  refine ⟨⟨rfl, rfl, ?_⟩, ⟨rfl, rfl, rfl⟩, ⟨rfl, rfl, rfl⟩, ⟨rfl, rfl, rfl⟩, rfl, rfl⟩
  have hsw : pyStartsWith "" "gh " = false := rfl
  simp [ghRun, hsw]

/-- C9: For the GitHub guard, an absent or unreadable settings store, or a
guard entry without the `enabled` key, behaves exactly like an explicitly
enabled store (the rules are still evaluated, as the concrete blocked command
shows); an explicit `enabled: false` makes the guard allow every command. -/
theorem c9_settings_enabled (stdin : StdinData) :
    (ghRun stdin .absent = ghRun stdin (.present (some true)) ∧
     ghRun stdin .unreadable = ghRun stdin (.present (some true)) ∧
     ghRun stdin (.present none) = ghRun stdin (.present (some true))) ∧
    ghRun stdin (.present (some false)) = .allow ∧
    isBlock (ghRun (.parsed (some "Bash") (some "gh pr merge 1")) .absent) = true := by
  refine ⟨⟨?_, ?_, ?_⟩, ?_, by decide⟩
  · cases stdin <;> rfl
  · cases stdin <;> rfl
  · cases stdin <;> rfl
  · cases stdin with
    | empty => rfl
    | malformed => rfl
    | parsed tn cmd? =>
      by_cases h : (!(tn.getD "" == "Bash") || !(pyStartsWith (cmd?.getD "") "gh ")) = true <;>
        simp [ghRun, h, settings_enabled, load_settings]

/-- C10: The modern-CLI, timeout and python-manager guards never read
`tool_name` (identical requests differing only in `tool_name` get identical
decisions), while the GitHub guard allows every request whose `tool_name`
is not `Bash` and does depend on `tool_name`. -/
theorem c10_tool_name_independence (t1 t2 tn : Option String) (cmd? : Option String)
    (store : SettingsStore) (env : ModernEnv) (d : ProjectDir) :
    modernRun (.parsed t1 cmd?) env = modernRun (.parsed t2 cmd?) env ∧
    timeoutRun (.parsed t1 cmd?) = timeoutRun (.parsed t2 cmd?) ∧
    pmRun (.parsed t1 cmd?) d = pmRun (.parsed t2 cmd?) d ∧
    (tn.getD "" ≠ "Bash" → ghRun (.parsed tn cmd?) store = .allow) ∧
    isBlock (ghRun (.parsed (some "Bash") (some "gh pr merge 1")) .absent) = true ∧
    ghRun (.parsed (some "Shell") (some "gh pr merge 1")) .absent = .allow := by
  refine ⟨rfl, rfl, rfl, ?_, by decide, by decide⟩
  intro h
  have hb : (tn.getD "" == "Bash") = false := beq_eq_false_iff_ne.mpr h
  simp [ghRun, hb]

/-- Witness for C10 at a concrete request pair. -/
theorem c10_tool_name_independence_witness :
    modernRun (.parsed (some "A") (some "ls")) ⟨true, true, true, true⟩ =
      modernRun (.parsed (some "B") (some "ls")) ⟨true, true, true, true⟩ ∧
    ghRun (.parsed (some "NotBash") (some "gh pr merge 1")) .absent = .allow := by
  have h := c10_tool_name_independence (some "A") (some "B") (some "NotBash") (some "ls")
    .absent ⟨true, true, true, true⟩ emptyDir
  exact ⟨h.1, (c10_tool_name_independence (some "A") (some "B") (some "NotBash")
    (some "gh pr merge 1") .absent ⟨true, true, true, true⟩ emptyDir).2.2.2.1 (by decide)⟩

/-- C7: Every command recognised as a manager-bootstrapping invocation
(`python`/`python3 -m <manager> ...`) is allowed by the python-manager guard
regardless of the project directory's detected manager; the bootstrapping
check runs before any blocking check. -/
theorem c7_bootstrapping_exemption (cmd : String) (tn : Option String) (d : ProjectDir)
    (h : is_bootstrapping_command cmd = true) :
    pmRun (.parsed tn (some cmd)) d = .allow ∧
    is_bootstrapping_command "python -m uv pip install x" = true := by
  refine ⟨?_, by decide⟩
  by_cases hc : (cmd == "") = true <;> simp [pmRun, hc, h]

/-- Witness for C7: the bootstrap command is allowed even in a project
detected as poetry. -/
theorem c7_bootstrapping_exemption_witness :
    is_bootstrapping_command "python -m uv pip install x" = true ∧
    detect_package_manager { emptyDir with poetryLock := true } = some "poetry" ∧
    pmRun (.parsed (some "Bash") (some "python -m uv pip install x"))
      { emptyDir with poetryLock := true } = .allow := by
  exact ⟨by decide, by decide,
    (c7_bootstrapping_exemption "python -m uv pip install x" (some "Bash")
      { emptyDir with poetryLock := true } (by decide)).1⟩

/-- The C2 counterexample directory: `pdm.lock` together with a generic
`.python-version` file that carries no rye marker. -/
def pdmPlusPvDir : ProjectDir :=
  { emptyDir with pdmLock := true, pythonVersion := some (some "3.11") }

/-- C2 counterexample: a directory containing both `pdm.lock` (a lock file
naming pdm) and a generic `.python-version` fallback marker resolves to
`uv`, not to `pdm`: the `.python-version` fallback is checked before
`pdm.lock`. -/
theorem c2_lock_priority_counterexample :
    pdmPlusPvDir.pdmLock = true ∧
    pdmPlusPvDir.pythonVersion = some (some "3.11") ∧
    detect_package_manager pdmPlusPvDir = some "uv" ∧
    ¬ detect_package_manager pdmPlusPvDir = some "pdm" := by
  exact ⟨rfl, rfl, by decide, by decide⟩

/-- C2 (amended): lock files checked before the `.python-version` fallback
(`poetry.lock`, `uv.lock`, `rye.lock`) win over a generic fallback marker:
detection returns the manager named by the lock file whatever
`.python-version` contains.  Lock files checked after the fallback
(`pdm.lock`, `pixi.lock`) lose to it: with a readable `.python-version`
without rye markers the result is `uv` regardless of those lock files. -/
theorem c2_lock_priority (d : ProjectDir) (hdir : d.isDir = true) :
    (d.poetryLock = true → detect_package_manager d = some "poetry") ∧
    (d.poetryLock = false → pyprojectManager d.pyproject = none → d.uvLock = true →
      detect_package_manager d = some "uv") ∧
    (d.poetryLock = false → pyprojectManager d.pyproject = none → d.uvLock = false →
      d.ryeLock = true → detect_package_manager d = some "rye") ∧
    (d.poetryLock = false → pyprojectManager d.pyproject = none → d.uvLock = false →
      d.ryeLock = false → ∀ content, d.pythonVersion = some (some content) →
      pyContains (String.mk (lowerL content.toList)) "rye" = false → d.ryeDir = false →
      detect_package_manager d = some "uv") := by
  refine ⟨?_, ?_, ?_, ?_⟩
  · intro hp
    simp [detect_package_manager, hdir, hp]
  · intro hp hpy huv
    simp [detect_package_manager, hdir, hp, hpy, huv]
  · intro hp hpy huv hr
    simp [detect_package_manager, hdir, hp, hpy, huv, hr]
  · intro hp hpy huv hr content hpv hnorye hryedir
    simp only [String.toList] at hnorye
    simp [detect_package_manager, hdir, hp, hpy, huv, hr, hpv, hnorye, hryedir]

/-- Witness for C2 (amended) at concrete directories. -/
theorem c2_lock_priority_witness :
    detect_package_manager
      { emptyDir with poetryLock := true, pythonVersion := some (some "3.11") } = some "poetry" ∧
    detect_package_manager
      { emptyDir with uvLock := true, pythonVersion := some (some "3.11") } = some "uv" ∧
    detect_package_manager
      { emptyDir with ryeLock := true, pythonVersion := some (some "3.11") } = some "rye" ∧
    detect_package_manager pdmPlusPvDir = some "uv" := by
  refine ⟨(c2_lock_priority _ rfl).1 rfl, (c2_lock_priority _ rfl).2.1 rfl rfl rfl,
    (c2_lock_priority _ rfl).2.2.1 rfl rfl rfl rfl,
    (c2_lock_priority pdmPlusPvDir rfl).2.2.2 rfl rfl rfl rfl "3.11" rfl (by decide) rfl⟩

/-- C8 counterexample: `--format` does not start with `-f` (it starts with
`--`), is not one of the exact field-flag tokens, and is not reported by
`has_field_flag`, contrary to the claim's `--format` example. -/
theorem c8_field_flag_counterexample :
    "--format".toList ∈ splitWsL "gh api repos --format json".toList ∧
    has_field_flag "gh api repos --format json" = false ∧
    "-f".toList.isPrefixOf "--format".toList = false := by
  exact ⟨by decide, by decide, by decide⟩

/-- C8 (amended): `has_field_flag` reports a field flag for every command
with a whitespace token that starts with `-f` or `-F` (hence also unrelated
flags such as `-force`) or equals `--field`/`--raw-field`; `--format` starts
with `--`, not `-f`, and is not matched. -/
theorem c8_field_flag (cmd : String) (t : List Char) (hmem : t ∈ splitWsL cmd.toList)
    (hf : "-f".toList.isPrefixOf t = true ∨ "-F".toList.isPrefixOf t = true ∨
          t = "--field".toList ∨ t = "--raw-field".toList) :
    has_field_flag cmd = true ∧
    has_field_flag "gh api x -force" = true ∧
    has_field_flag "gh api x --format" = false := by
  refine ⟨?_, by decide, by decide⟩
  unfold has_field_flag
  rw [List.any_eq_true]
  refine ⟨t, hmem, ?_⟩
  simp only [Bool.or_eq_true, beq_iff_eq]
  rcases hf with h | h | h | h
  exacts [Or.inl (Or.inr h), Or.inr h, Or.inl (Or.inl (Or.inl (Or.inr h))),
    Or.inl (Or.inl (Or.inr h))]

/-- Witness for C8 (amended) at a concrete command and token. -/
theorem c8_field_flag_witness :
    "-fkey=v".toList ∈ splitWsL "gh api repos -fkey=v".toList ∧
    has_field_flag "gh api repos -fkey=v" = true := by
  exact ⟨by decide,
    (c8_field_flag "gh api repos -fkey=v" "-fkey=v".toList (by decide)
      (Or.inl (by decide))).1⟩

/-- A character of an all-digit token is a digit. -/
theorem digit_of_mem_isDigitL {l : List Char} {c : Char} (h : isDigitL l = true) (hc : c ∈ l) :
    c.isDigit = true := by
  unfold isDigitL at h
  rw [Bool.and_eq_true] at h
  exact List.all_eq_true.mp h.2 c hc

/-- C5: duration extraction and normalization of the timeout guard:
an all-digit token with unit `s` normalizes to its value ×1000, with unit `m`
to ×60000, and a bare all-digit token to ×1000 (seconds); extraction takes
the first integer or integer-plus-unit token after `timeout`, skipping `--`
flags, and defaults to `5` (hence `5000`) when no such token exists. -/
theorem c5_duration_parsing (s : String) (h : isDigitL s.toList = true) :
    to_ms (s ++ "s") = toString (natOfDigits s.toList * 1000) ∧
    to_ms (s ++ "m") = toString (natOfDigits s.toList * 60000) ∧
    to_ms s = toString (natOfDigits s.toList * 1000) ∧
    parse_duration "timeout 30s sleep 100" = ("30s", "sleep 100") ∧
    to_ms "30s" = "30000" ∧
    parse_duration "timeout 5 sleep 100" = ("5", "sleep 100") ∧
    to_ms "5" = "5000" ∧
    parse_duration "timeout somecmd" = ("5", "somecmd") ∧
    to_ms "5" = "5000" ∧
    parse_duration "timeout --foreground 30s sleep 1" = ("30s", "sleep 1") := by
  have hls : (s ++ "s").toList = s.toList ++ ['s'] := String.data_append s "s"
  have hlm : (s ++ "m").toList = s.toList ++ ['m'] := String.data_append s "m"
  have hd : isDigitL s.data = true := h
  refine ⟨?_, ?_, ?_, by decide, by decide, by decide, by decide, by decide, by decide,
    by decide⟩
  · unfold to_ms
    rw [hls, List.getLast?_concat, List.dropLast_concat]
    simp [h, hd]
  · unfold to_ms
    rw [hlm, List.getLast?_concat, List.dropLast_concat]
    simp [h, hd]
  · have hne : s.toList ≠ [] := by
      unfold isDigitL at h
      rw [Bool.and_eq_true] at h
      simpa using h.1
    cases hgl : s.toList.getLast? with
    | none => exact absurd (List.getLast?_eq_none_iff.mp hgl) hne
    | some c =>
      have hcmem : c ∈ s.toList := by
        obtain ⟨hne2, heq⟩ := List.mem_getLast?_eq_getLast (Option.mem_def.mpr hgl)
        rw [heq]
        exact List.getLast_mem hne2
      have hdig : c.isDigit = true := digit_of_mem_isDigitL h hcmem
      have hcs : (c == 's') = false := by
        cases hcc : (c == 's') with
        | false => rfl
        | true => rw [eq_of_beq hcc] at hdig; exact absurd hdig (by decide)
      have hcm : (c == 'm') = false := by
        cases hcc : (c == 'm') with
        | false => rfl
        | true => rw [eq_of_beq hcc] at hdig; exact absurd hdig (by decide)
      unfold to_ms
      rw [hgl]
      simp [hcs, hcm, h, hd]

/-- Witness for C5 at the digit string `30`. -/
theorem c5_duration_parsing_witness :
    isDigitL "30".toList = true ∧
    to_ms ("30" ++ "s") = toString (natOfDigits "30".toList * 1000) ∧
    to_ms "30" = toString (natOfDigits "30".toList * 1000) := by
  have h := c5_duration_parsing "30" (by decide)
  exact ⟨by decide, h.1, h.2.2.1⟩

/-- C6 counterexample: in a command containing a literal newline, the guard
treats `grep` as a command although `grep` is not the first token of any
segment obtained by splitting on `|`, `&&`, `||`, `;` alone
(`spec_uses_as_command false`): the code also splits on newlines. -/
theorem c6_segment_head_counterexample :
    has_command_word "echo x\ngrep y" "grep" = true ∧
    spec_uses_as_command false "echo x\ngrep y" "grep" = false := by
  exact ⟨by decide, by decide⟩

/-- C6 (amended): a word is treated as a command iff it is the first token of
some segment obtained by splitting on `|`, `&&`, `||`, `;` **and newlines**
and trimming whitespace; with the modern replacement installed, `echo grep`
does not trigger the grep rule while `grep foo` blocks with exit 2. -/
theorem c6_segment_head (cmd word : String) (env : ModernEnv) (h : env.rg = true) :
    has_command_word cmd word = spec_uses_as_command true cmd word ∧
    modernRun (.parsed (some "Bash") (some "echo grep")) env = .allow ∧
    exitCode (modernRun (.parsed (some "Bash") (some "grep foo")) env) = 2 := by
  refine ⟨has_command_word_eq_spec cmd word, ?_, ?_⟩
  · have h1 : has_command_word "echo grep" "grep" = false := by decide
    have h2 : has_command_word "echo grep" "find" = false := by decide
    have h3 : has_command_word "echo grep" "cat" = false := by decide
    have h4 : has_command_word "echo grep" "ls" = false := by decide
    simp [modernRun, modernBlocks, h1, h2, h3, h4]
  · have h1 : has_command_word "grep foo" "grep" = true := by decide
    have h2 : has_command_word "grep foo" "find" = false := by decide
    have h3 : has_command_word "grep foo" "cat" = false := by decide
    have h4 : has_command_word "grep foo" "ls" = false := by decide
    simp [modernRun, modernBlocks, h, h1, h2, h3, h4, exitCode]

/-- Witness for C6 (amended) at a concrete command, word and environment. -/
theorem c6_segment_head_witness :
    has_command_word "a|grep x" "grep" = spec_uses_as_command true "a|grep x" "grep" ∧
    modernRun (.parsed (some "Bash") (some "echo grep")) ⟨true, true, true, true⟩ = .allow ∧
    exitCode (modernRun (.parsed (some "Bash") (some "grep foo")) ⟨true, true, true, true⟩) = 2 := by
  exact c6_segment_head "a|grep x" "grep" ⟨true, true, true, true⟩ rfl

/-- The chain condition of the timeout guard's second pattern: the command
contains ` timeout ` or ` gtimeout ` as a substring together with one of the
chain separators `&&`, `||`, `;`, `|`. -/
def timeoutChainTrigger (cmd : String) : Bool :=
  (pyContains cmd " timeout " || pyContains cmd " gtimeout ") &&
  (["&&", "||", ";", "|"].any (fun sep => pyContains cmd sep))

/-- The guarded legacy tools of the modern-CLI enforcer. -/
def LEGACY_TOOLS : List String := ["grep", "find", "cat", "ls"]

/-- C3 counterexample: the timeout guard blocks (exit 2) a command whose
first token is `echo`, which is not a guarded top-level tool name, because
` timeout ` occurs later in a `&&` chain. -/
theorem c3_first_token_counterexample :
    firstToken "echo ok && timeout 5 sleep 1" = some "echo".toList ∧
    exitCode (timeoutRun (.parsed (some "Bash") (some "echo ok && timeout 5 sleep 1"))) = 2 := by
  exact ⟨by decide, by decide⟩

/-- C3 (amended): a request whose command's first token is not a guarded
top-level tool name is allowed by the GitHub guard (`gh`) and the
python-manager guard (`python`, `python3`) unconditionally; the modern-CLI
guard additionally requires that no segment head is a guarded legacy tool,
and the timeout guard additionally requires that the command does not
contain ` timeout `/` gtimeout ` combined with a chain separator. -/
theorem c3_first_token_allow (tn : Option String) (cmd : String) (store : SettingsStore)
    (env : ModernEnv) (d : ProjectDir) :
    (firstToken cmd ≠ some "gh".toList → ghRun (.parsed tn (some cmd)) store = .allow) ∧
    (firstToken cmd ≠ some "python".toList → firstToken cmd ≠ some "python3".toList →
      pmRun (.parsed tn (some cmd)) d = .allow) ∧
    ((∀ w ∈ LEGACY_TOOLS, spec_uses_as_command true cmd w = false) →
      modernRun (.parsed tn (some cmd)) env = .allow) ∧
    (firstToken cmd ≠ some "timeout".toList → firstToken cmd ≠ some "gtimeout".toList →
      timeoutChainTrigger cmd = false → timeoutRun (.parsed tn (some cmd)) = .allow) := by
  refine ⟨?_, ?_, ?_, ?_⟩
  · intro hft
    have hsw : pyStartsWith cmd "gh " = false := by
      cases hh : pyStartsWith cmd "gh " with
      | false => rfl
      | true => exact absurd (firstToken_of_gh hh) hft
    simp [ghRun, hsw]
  · intro hp1 hp2
    by_cases hc : (cmd == "") = true
    · simp [pmRun, hc]
    · by_cases hb : is_bootstrapping_command cmd = true
      · simp [pmRun, hc, hb]
      · have hsb : should_block_command cmd = false := by
          cases hh : should_block_command cmd with
          | false => rfl
          | true =>
            rcases firstToken_of_should_block hh with h | h
            · exact absurd h hp1
            · exact absurd h hp2
        simp [pmRun, hc, hb, hsb]
  · intro hmn
    by_cases hc : (cmd == "") = true
    · simp [modernRun, hc]
    · have hg : has_command_word cmd "grep" = false := by
        rw [has_command_word_eq_spec]; exact hmn "grep" (by simp [LEGACY_TOOLS])
      have hf : has_command_word cmd "find" = false := by
        rw [has_command_word_eq_spec]; exact hmn "find" (by simp [LEGACY_TOOLS])
      have hcat : has_command_word cmd "cat" = false := by
        rw [has_command_word_eq_spec]; exact hmn "cat" (by simp [LEGACY_TOOLS])
      have hls : has_command_word cmd "ls" = false := by
        rw [has_command_word_eq_spec]; exact hmn "ls" (by simp [LEGACY_TOOLS])
      simp [modernRun, modernBlocks, hc, hg, hf, hcat, hls]
  · intro ht1 ht2 htrig
    by_cases hc : (cmd == "") = true
    · simp [timeoutRun, hc]
    · have hs1 : pyStartsWith (pyStrip cmd) "timeout " = false := by
        cases hh : pyStartsWith (pyStrip cmd) "timeout " with
        | false => rfl
        | true => exact absurd (firstToken_of_timeout hh) ht1
      have hs2 : pyStartsWith (pyStrip cmd) "gtimeout " = false := by
        cases hh : pyStartsWith (pyStrip cmd) "gtimeout " with
        | false => rfl
        | true => exact absurd (firstToken_of_gtimeout hh) ht2
      unfold timeoutChainTrigger at htrig
      rw [Bool.and_eq_false_iff] at htrig
      by_cases hcon : (pyContains cmd " timeout " || pyContains cmd " gtimeout ") = true
      · have hsep : (["&&", "||", ";", "|"].any (fun sep => pyContains cmd sep)) = false := by
          rcases htrig with h | h
          · exact absurd hcon (by simp [h])
          · exact h
        simp [timeoutRun, hc, hs1, hs2, hcon, hsep]
      · rw [Bool.not_eq_true] at hcon
        simp [timeoutRun, hc, hs1, hs2, hcon]

/-- Witness for C3 (amended) at a concrete harmless command. -/
theorem c3_first_token_allow_witness :
    ghRun (.parsed (some "Bash") (some "echo hello")) .absent = .allow ∧
    pmRun (.parsed (some "Bash") (some "echo hello")) emptyDir = .allow ∧
    modernRun (.parsed (some "Bash") (some "echo hello")) ⟨true, true, true, true⟩ = .allow ∧
    timeoutRun (.parsed (some "Bash") (some "echo hello")) = .allow := by
  have h := c3_first_token_allow (some "Bash") "echo hello" .absent ⟨true, true, true, true⟩
    emptyDir
  exact ⟨h.1 (by decide), h.2.1 (by decide) (by decide), h.2.2.1 (by decide),
    h.2.2.2 (by decide) (by decide) (by decide)⟩

/-- C4 counterexample: a command with leading whitespace whose first token is
`gh` and second is `api`, with a field flag, no write-method flag and no GET
override, is allowed: `main` requires the raw command to start with `gh `
before any rule is evaluated. -/
theorem c4_gh_api_counterexample :
    (splitWsL "  gh api -f a=b".toList).head? = some "gh".toList ∧
    (splitWsL "  gh api -f a=b".toList).tail.head? = some "api".toList ∧
    has_field_flag "  gh api -f a=b" = true ∧
    WRITE_METHODS.all (fun m => !(has_method_flag "  gh api -f a=b" m)) = true ∧
    has_get_method "  gh api -f a=b" = false ∧
    ghRun (.parsed (some "Bash") (some "  gh api -f a=b")) (.present (some true)) = .allow := by
  exact ⟨by decide, by decide, by decide, by decide, by decide, by decide⟩

/-- C4 (amended): for a Bash request whose command starts with `gh ` (no
leading whitespace), has first token `gh` and second token `api`, contains a
field flag and no write-method flag, and runs with the guard enabled: an
explicit case-sensitive GET override makes the decision allow, and without
the override the decision is block with exit code 2. -/
theorem c4_gh_api_field_flag (cmd : String) (store : SettingsStore)
    (hstart : pyStartsWith cmd "gh " = true)
    (h0 : (splitWsL cmd.toList).head? = some "gh".toList)
    (h1 : (splitWsL cmd.toList).tail.head? = some "api".toList)
    (hen : settings_enabled store = true)
    (hnm : ∀ m ∈ WRITE_METHODS, has_method_flag cmd m = false)
    (hff : has_field_flag cmd = true) :
    (has_get_method cmd = true → ghRun (.parsed (some "Bash") (some cmd)) store = .allow) ∧
    (has_get_method cmd = false →
      exitCode (ghRun (.parsed (some "Bash") (some cmd)) store) = 2) := by
  have hrun : ghRun (.parsed (some "Bash") (some cmd)) store =
      (match ghApiBlock cmd with | some dd => dd | none => ghWriteCmdCheck cmd) := by
    simp [ghRun, hstart, hen]
  have hfind : WRITE_METHODS.find? (fun method => has_method_flag cmd method) = none :=
    List.find?_eq_none.mpr (fun m hm => by simp [hnm m hm])
  cases hl : splitWsL cmd.toList with
  | nil => rw [hl] at h0; exact absurd h0 (by simp)
  | cons t0 ts =>
    cases ts with
    | nil => rw [hl] at h1; exact absurd h1 (by simp)
    | cons t1 rest =>
      rw [hl] at h0 h1
      simp only [List.head?_cons, List.tail_cons, Option.some.injEq] at h0 h1
      subst h0
      subst h1
      constructor
      · intro hget
        have hapi : ghApiBlock cmd = none := by
          unfold ghApiBlock
          rw [hl]
          simp [hfind, hff, hget]
        rw [hrun, hapi]
        have h1' : (splitWsL cmd.toList).tail.head? = some "api".toList := by
          rw [hl]; rfl
        show ghWriteCmdCheck cmd = .allow
        unfold ghWriteCmdCheck
        rw [write_cmds_not_prefix_of_api h1']
      · intro hget
        have hapi : ghApiBlock cmd =
            some (.block "❌ GitHub write blocked: gh api with -f/-F flags (defaults to POST)") := by
          unfold ghApiBlock
          rw [hl]
          simp [hfind, hff, hget]
        rw [hrun, hapi]
        rfl

/-- Witness for C4 (amended): the same `gh api` field-flag command is allowed
with an explicit `-X GET` and blocked (exit 2) without it. -/
theorem c4_gh_api_field_flag_witness :
    ghRun (.parsed (some "Bash") (some "gh api repos/o/r -f a=b -X GET"))
      (.present (some true)) = .allow ∧
    exitCode (ghRun (.parsed (some "Bash") (some "gh api repos/o/r -f a=b"))
      (.present (some true))) = 2 := by
  constructor
  · exact (c4_gh_api_field_flag "gh api repos/o/r -f a=b -X GET" (.present (some true))
      (by decide) (by decide) (by decide) rfl
      (by intro m hm; fin_cases hm <;> decide) (by decide)).1 (by decide)
  · exact (c4_gh_api_field_flag "gh api repos/o/r -f a=b" (.present (some true))
      (by decide) (by decide) (by decide) rfl
      (by intro m hm; fin_cases hm <;> decide) (by decide)).2 (by decide)
